import Mathlib

/-!
Verification of the DePIN storage CLI core: the storage smart contract
(StorageContract.sol), the client upload path (client.js / startClient), the
download path (download.js / downloadFile), the keystore (keystore.js), the
provider registration path (provider.js / startProvider) and the metadata
index queries (supabase.js).

JavaScript strings (addresses, CIDs, file contents) are modelled as lists of
character codes (`Bytes`); Solidity uint256 values as `Nat` (no operation here
approaches 2^256, and Solidity 0.8 checked arithmetic reverts instead of
wrapping, modelled with `Option`/`Except`); Solidity mappings as association
lists with the zero-value default that Solidity mappings give.
-/

/-- Byte/character-code sequences: the model of JS strings and buffers. -/
abbrev Bytes := List Nat

/-- Read a Solidity mapping / JS object: the stored value, or the default. -/
def lookupD {α β : Type} [DecidableEq α] : List (α × β) → α → β → β
  | [], _, d => d
  | (k', v) :: rest, k, d => if k' = k then v else lookupD rest k d

/-- Write a Solidity mapping / JS object: replace the binding or add it. -/
def setAssoc {α β : Type} [DecidableEq α] : List (α × β) → α → β → List (α × β)
  | [], k, v => [(k, v)]
  | (k', v') :: rest, k, v =>
      if k' = k then (k, v) :: rest else (k', v') :: setAssoc rest k v

theorem mem_setAssoc {α β : Type} [DecidableEq α] {l : List (α × β)} {k : α} {v : β}
    {p : α × β} (h : p ∈ setAssoc l k v) : p = (k, v) ∨ p ∈ l := by
  revert h
  induction l with
  | nil => intro h; simpa [setAssoc] using h
  | cons hd tl ih =>
    intro h
    rcases hd with ⟨k', v'⟩
    by_cases hk : k' = k
    · simp only [setAssoc, if_pos hk, List.mem_cons] at h
      rcases h with h | h
      · exact Or.inl h
      · exact Or.inr (List.mem_cons_of_mem _ h)
    · simp only [setAssoc, if_neg hk, List.mem_cons] at h
      rcases h with h | h
      · exact Or.inr (by simp [h])
      · rcases ih h with h' | h'
        · exact Or.inl h'
        · exact Or.inr (List.mem_cons_of_mem _ h')

theorem lookupD_cases {α β : Type} [DecidableEq α] (l : List (α × β)) (k : α) (d : β) :
    (k, lookupD l k d) ∈ l ∨ lookupD l k d = d := by
  induction l with
  | nil => exact Or.inr rfl
  | cons hd tl ih =>
    rcases hd with ⟨k', v'⟩
    by_cases hk : k' = k
    · subst hk
      simp [lookupD]
    · simp only [lookupD, if_neg hk]
      rcases ih with h | h
      · exact Or.inl (List.mem_cons_of_mem _ h)
      · exact Or.inr h

theorem lookupD_setAssoc_self {α β : Type} [DecidableEq α] (l : List (α × β))
    (k : α) (v : β) (d : β) : lookupD (setAssoc l k v) k d = v := by
  induction l with
  | nil => simp [setAssoc, lookupD]
  | cons hd tl ih =>
    rcases hd with ⟨k', v'⟩
    by_cases hk : k' = k
    · simp [setAssoc, hk, lookupD]
    · simp [setAssoc, hk, lookupD, ih]

/-- The zero address sentinel, `'0x' + 40 * '0'`, as character codes. -/
def zeroAddrB : Bytes := 48 :: 120 :: List.replicate 40 48

/-- ASCII lower-casing of one character code (String.prototype.toLowerCase on
the hex addresses the code compares). -/
def lowerChar (c : Nat) : Nat := if 65 ≤ c ∧ c ≤ 90 then c + 32 else c

/-- ASCII lower-casing of a whole string. -/
def lowerBytes (s : Bytes) : Bytes := s.map lowerChar

/-! ## The storage contract (src/unnamed/part_001, StorageContract)

`ClientStorage` and `Provider` mirror the Solidity structs field for field;
`ContractState` carries the two top-level mappings. -/

structure ContractClientStorage where
  allocatedSpace : Nat
  usedSpace : Nat
  paymentAmount : Nat
  lastPaymentTime : Nat
  storedFileCIDs : List Bytes
  fileSizes : List (Bytes × Nat)
deriving DecidableEq

structure ContractProvider where
  providerAddress : Bytes
  allocatedStorage : Nat
  usedStorage : Nat
  pricePerGB : Nat
  isActive : Bool
  clients : List Bytes
  clientStorages : List (Bytes × ContractClientStorage)
deriving DecidableEq

structure ContractState where
  providers : List (Bytes × ContractProvider)
  cidToProvider : List (Bytes × Bytes)
deriving DecidableEq

/-- The zero value a Solidity mapping yields for an absent ClientStorage. -/
def emptyClientStorage : ContractClientStorage :=
  { allocatedSpace := 0, usedSpace := 0, paymentAmount := 0, lastPaymentTime := 0
    storedFileCIDs := [], fileSizes := [] }

/-- The zero value a Solidity mapping yields for an absent Provider. -/
def emptyProvider : ContractProvider :=
  { providerAddress := zeroAddrB, allocatedStorage := 0, usedStorage := 0
    pricePerGB := 0, isActive := false, clients := [], clientStorages := [] }

/-- StorageContract.registerProvider: requires storage and price nonzero, then
overwrites address, allocation, price and active flag of the caller's record
(usedStorage and clients are kept). -/
def registerProvider (st : ContractState) (caller : Bytes)
    (storageAmt pricePerGB : Nat) : Except String ContractState :=
  if storageAmt = 0 then Except.error "Storage must be greater than 0"
  else if pricePerGB = 0 then Except.error "Price must be greater than 0"
  else
    let p := lookupD st.providers caller emptyProvider
    let p' := { p with providerAddress := caller, allocatedStorage := storageAmt
                       pricePerGB := pricePerGB, isActive := true }
    Except.ok { st with providers := setAssoc st.providers caller p' }

/-- StorageContract.purchaseStorage.  The Solidity guard
`allocatedStorage - usedStorage >= amount` with checked subtraction reverts
exactly when `allocatedStorage < usedStorage + amount`; `transferOk` stands for
the ERC-20 transferFrom succeeding; `now` is block.timestamp. -/
def purchaseStorage (st : ContractState) (caller providerAddr : Bytes)
    (storageAmount : Nat) (transferOk : Bool) (now : Nat) : Option ContractState :=
  let p := lookupD st.providers providerAddr emptyProvider
  if p.isActive = false then none
  else if p.allocatedStorage < p.usedStorage + storageAmount then none
  else if transferOk = false then none
  else
    let payment := storageAmount * p.pricePerGB
    let cs := lookupD p.clientStorages caller emptyClientStorage
    let clients' := if cs.allocatedSpace = 0 then p.clients ++ [caller] else p.clients
    let cs' := { cs with allocatedSpace := cs.allocatedSpace + storageAmount
                         paymentAmount := cs.paymentAmount + payment
                         lastPaymentTime := now }
    let p' := { p with clients := clients'
                       clientStorages := setAssoc p.clientStorages caller cs'
                       usedStorage := p.usedStorage + storageAmount }
    some { st with providers := setAssoc st.providers providerAddr p' }

/-- StorageContract.storeFile's size conversion:
`(_fileSize * 1e9) / (1000 * 1e9)` in integer division, then the zero result of
a nonzero input is bumped to 1. -/
def contractFileSizeGB (fileSize : Nat) : Nat :=
  let g := fileSize * 1000000000 / (1000 * 1000000000)
  if g = 0 ∧ 0 < fileSize then 1 else g

/-- StorageContract.storeFile: converts the milli-unit size, requires the
client's remaining allocation to cover it, then records CID, size, usage and
the cid→provider link. -/
def storeFile (st : ContractState) (caller providerAddr cid : Bytes)
    (fileSize : Nat) : Option ContractState :=
  let p := lookupD st.providers providerAddr emptyProvider
  let cs := lookupD p.clientStorages caller emptyClientStorage
  let g := contractFileSizeGB fileSize
  if cs.allocatedSpace < cs.usedSpace + g then none
  else
    let cs' := { cs with storedFileCIDs := cs.storedFileCIDs ++ [cid]
                         fileSizes := setAssoc cs.fileSizes cid fileSize
                         usedSpace := cs.usedSpace + g }
    let p' := { p with clientStorages := setAssoc p.clientStorages caller cs' }
    some { st with providers := setAssoc st.providers providerAddr p'
                   cidToProvider := setAssoc st.cidToProvider cid providerAddr }

/-- StorageContract.distributeMiningRewards: requires the caller's provider
record active, computes `usedStorage * 100 / allocatedStorage` (reverting on
the division by zero when allocatedStorage = 0, as Solidity 0.8 does) and pays
`utilizationRate * 1 ether / 100`; `transferOk` stands for the token transfer
succeeding. -/
def distributeMiningRewards (st : ContractState) (caller : Bytes)
    (transferOk : Bool) : Option Nat :=
  let p := lookupD st.providers caller emptyProvider
  if p.isActive = false then none
  else if p.allocatedStorage = 0 then none
  else
    let utilizationRate := p.usedStorage * 100 / p.allocatedStorage
    let rewardAmount := utilizationRate * 1000000000000000000 / 100
    if transferOk = false then none else some rewardAmount

/-- StorageContract.getFileDetails: reverts "File not found" when the cid maps
to the zero provider address, scans the provider's clients for the first one
whose storedFileCIDs holds the cid, reverts when none does, else returns
(provider, owner, recorded size). -/
def getFileDetails (st : ContractState) (cid : Bytes) :
    Except String (Bytes × Bytes × Nat) :=
  let providerAddr := lookupD st.cidToProvider cid zeroAddrB
  if providerAddr = zeroAddrB then Except.error "File not found"
  else
    let fileProvider := lookupD st.providers providerAddr emptyProvider
    match fileProvider.clients.find? (fun c =>
        decide (cid ∈ (lookupD fileProvider.clientStorages c emptyClientStorage).storedFileCIDs)) with
    | none => Except.error "File not found or access denied"
    | some owner =>
        Except.ok (providerAddr, owner,
          lookupD (lookupD fileProvider.clientStorages owner emptyClientStorage).fileSizes cid 0)

/-- Whether an Except result is the ok branch. -/
def exceptIsOk {ε α : Type} : Except ε α → Bool
  | Except.ok _ => true
  | Except.error _ => false

/-! ## Invariants (spec §3 / §8): used capacity never exceeds allocated. -/

/-- ClientAllocation invariant: usedSpace ≤ allocatedSpace. -/
abbrev clientInv (cs : ContractClientStorage) : Prop :=
  cs.usedSpace ≤ cs.allocatedSpace

/-- Provider invariant: usedStorage ≤ allocatedStorage, and every client
allocation under the provider satisfies its own invariant. -/
abbrev providerInv (p : ContractProvider) : Prop :=
  p.usedStorage ≤ p.allocatedStorage ∧ ∀ e ∈ p.clientStorages, clientInv e.2

/-- Ledger state invariant: every provider record satisfies providerInv. -/
abbrev stateInv (st : ContractState) : Prop :=
  ∀ e ∈ st.providers, providerInv e.2

theorem providerInv_lookup {st : ContractState} (h : stateInv st) (a : Bytes) :
    providerInv (lookupD st.providers a emptyProvider) := by
  rcases lookupD_cases st.providers a emptyProvider with hm | hd
  · exact h _ hm
  · rw [hd]
    exact ⟨Nat.le_refl 0, by intro e he; simp [emptyProvider] at he⟩

theorem clientInv_lookup {p : ContractProvider} (h : providerInv p) (a : Bytes) :
    clientInv (lookupD p.clientStorages a emptyClientStorage) := by
  rcases lookupD_cases p.clientStorages a emptyClientStorage with hm | hd
  · exact h.2 _ hm
  · rw [hd]
    exact Nat.le_refl 0

/-- Helper: the ledger-side unit conversion yields at least one allocation
unit for any nonzero milli-unit input. -/
theorem contractFileSizeGB_pos (m : Nat) (hm : 0 < m) : 1 ≤ contractFileSizeGB m := by
  simp only [contractFileSizeGB]
  split_ifs with h
  · exact Nat.le_refl 1
  · omega

/-- Client-side size conversion in startClient (client.js):
`Math.max(Math.ceil(fileSizeBytes / 1000), 1)`, submitted as the `_fileSize`
argument of storeFile. -/
def clientFileSizeWei (fileSizeBytes : Nat) : Nat :=
  max ((fileSizeBytes + 999) / 1000) 1

/-- C2: the sizeUnits startClient submits to storeFile is the byte length in
ceil milli-units floored at 1, the ledger's storeFile converts milli-units back
to whole units via integer division rounding 0 up to 1 for nonzero input, and
composing the two never lets a non-empty file register as zero units. -/
theorem c2_size_unit_accounting (b m : Nat) :
    clientFileSizeWei b = max ((b + 999) / 1000) 1 ∧
    1 ≤ clientFileSizeWei b ∧
    contractFileSizeGB m = (if m / 1000 = 0 ∧ 0 < m then 1 else m / 1000) ∧
    (0 < m → 1 ≤ contractFileSizeGB m) ∧
    (0 < b → 1 ≤ contractFileSizeGB (clientFileSizeWei b)) := by
  refine ⟨rfl, le_max_right _ _, ?_, contractFileSizeGB_pos m, ?_⟩
  · simp only [contractFileSizeGB]
    have hdiv : m * 1000000000 / (1000 * 1000000000) = m / 1000 := by omega
    rw [hdiv]
  · intro _
    exact contractFileSizeGB_pos _ (Nat.lt_of_lt_of_le Nat.zero_lt_one (le_max_right _ _))

/-- C4: a successful purchaseStorage or storeFile call from a ledger state in
which every used figure is bounded by its allocation leaves every used figure
bounded by its allocation, for the client allocations and the providers alike. -/
theorem c4_ledger_invariant_preserved
    (st : ContractState) (caller providerAddr cid : Bytes)
    (amount fileSize now : Nat) (transferOk : Bool)
    (hInv : stateInv st) :
    (∀ st1, purchaseStorage st caller providerAddr amount transferOk now = some st1 →
        stateInv st1) ∧
    (∀ st2, storeFile st caller providerAddr cid fileSize = some st2 → stateInv st2) := by
  have hp : providerInv (lookupD st.providers providerAddr emptyProvider) :=
    providerInv_lookup hInv providerAddr
  have hp1 : (lookupD st.providers providerAddr emptyProvider).usedStorage ≤
      (lookupD st.providers providerAddr emptyProvider).allocatedStorage := hp.1
  have hcs : (lookupD (lookupD st.providers providerAddr emptyProvider).clientStorages
        caller emptyClientStorage).usedSpace ≤
      (lookupD (lookupD st.providers providerAddr emptyProvider).clientStorages
        caller emptyClientStorage).allocatedSpace := clientInv_lookup hp caller
  constructor
  · intro st1 h
    simp only [purchaseStorage] at h
    split_ifs at h <;>
      · obtain rfl : _ = st1 := Option.some.inj h
        intro e he
        rcases mem_setAssoc he with rfl | he'
        · refine ⟨by simp; omega, ?_⟩
          intro e2 he2
          rcases mem_setAssoc he2 with rfl | he2'
          · simp <;> omega
          · exact hp.2 _ he2'
        · exact hInv _ he'
  · intro st2 h
    simp only [storeFile] at h
    split_ifs at h <;>
      · obtain rfl : _ = st2 := Option.some.inj h
        intro e he
        rcases mem_setAssoc he with rfl | he'
        · refine ⟨by simpa using hp1, ?_⟩
          intro e2 he2
          rcases mem_setAssoc he2 with rfl | he2'
          · simp <;> omega
          · exact hp.2 _ he2'
        · exact hInv _ he'

/-- Concrete ledger state for the C4 witness: one active provider with 10 units
allocated, none used, and no client allocations. -/
def c4state : ContractState :=
  { providers := [([1], { providerAddress := [1], allocatedStorage := 10
                          usedStorage := 0, pricePerGB := 10, isActive := true
                          clients := [], clientStorages := [] })]
    cidToProvider := [] }

/-- Witness for C4 at a concrete state: the invariant holds and is preserved. -/
theorem c4_witness :
    stateInv c4state ∧
    ((∀ st1, purchaseStorage c4state [2] [1] 2 true 7 = some st1 → stateInv st1) ∧
     (∀ st2, storeFile c4state [2] [1] [9] 0 = some st2 → stateInv st2)) :=
  ⟨by decide, c4_ledger_invariant_preserved c4state [2] [1] [9] 2 0 7 true (by decide)⟩

/-- C5 counterexample: on a ledger that knows no content address at all,
getFileDetails for the cid "QmX" raises (reverts with "File not found") instead
of returning a zero-address owner sentinel, so the claimed non-exception path
does not exist. -/
theorem c5_counterexample_unknown_cid :
    getFileDetails { providers := [], cidToProvider := [] } [81, 109, 88] =
      Except.error "File not found" ∧
    exceptIsOk (getFileDetails { providers := [], cidToProvider := [] } [81, 109, 88])
      = false := ⟨rfl, rfl⟩

/-- C5 amended: for every content address unknown to the ledger (its
cidToProvider entry is the zero address), getFileDetails reverts with
"File not found" — an exception path, not a sentinel return. -/
theorem c5_unknown_cid_is_exception (st : ContractState) (cid : Bytes)
    (h : lookupD st.cidToProvider cid zeroAddrB = zeroAddrB) :
    getFileDetails st cid = Except.error "File not found" := by
  simp [getFileDetails, h]

/-- Witness for C5 at a concrete state and cid. -/
theorem c5_witness :
    lookupD (ContractState.mk [] []).cidToProvider [81] zeroAddrB = zeroAddrB ∧
    getFileDetails { providers := [], cidToProvider := [] } [81] =
      Except.error "File not found" :=
  ⟨rfl, c5_unknown_cid_is_exception { providers := [], cidToProvider := [] } [81] rfl⟩

/-- C7: for an active provider with nonzero allocation, the reward paid by
distributeMiningRewards is exactly the integer utilization rate
(used*100/allocated) times a fixed unit of 10^16 wei (0.01 AAI per utilization
point) — linear in the computed utilization. -/
theorem c7_reward_proportional_to_utilization (st : ContractState) (caller : Bytes)
    (hActive : (lookupD st.providers caller emptyProvider).isActive = true)
    (hAlloc : 0 < (lookupD st.providers caller emptyProvider).allocatedStorage) :
    distributeMiningRewards st caller true =
      some ((lookupD st.providers caller emptyProvider).usedStorage * 100 /
            (lookupD st.providers caller emptyProvider).allocatedStorage *
            10000000000000000) := by
  simp only [distributeMiningRewards, hActive]
  rw [if_neg (by simp), if_neg (by omega), if_neg (by simp)]
  congr 1
  omega

/-- Concrete ledger state for the C7 witness: one active provider, 10 units
allocated, 5 used. -/
def c7state : ContractState :=
  { providers := [([3], { providerAddress := [3], allocatedStorage := 10
                          usedStorage := 5, pricePerGB := 10, isActive := true
                          clients := [], clientStorages := [] })]
    cidToProvider := [] }

/-- Witness for C7: at 50% utilization the reward is 50 * 10^16 wei. -/
theorem c7_witness :
    (lookupD c7state.providers [3] emptyProvider).isActive = true ∧
    0 < (lookupD c7state.providers [3] emptyProvider).allocatedStorage ∧
    distributeMiningRewards c7state [3] true =
      some ((lookupD c7state.providers [3] emptyProvider).usedStorage * 100 /
            (lookupD c7state.providers [3] emptyProvider).allocatedStorage *
            10000000000000000) :=
  ⟨rfl, by decide, c7_reward_proportional_to_utilization c7state [3] rfl (by decide)⟩

/-! ## The metadata index (src/src/supabase.js) -/

/-- One row of the `providers` table (schema in the SQL migration): DECIMAL
storage columns are modelled as rationals, the timestamp as epoch
milliseconds. -/
structure ProviderRow where
  provider_id : Bytes
  wallet_address : Bytes
  allocated_storage : ℚ
  price_per_gb : ℚ
  is_active : Bool
  total_storage : ℚ
  available_storage : ℚ
  last_updated : Nat
deriving DecidableEq

/-- Descending insertion by last_updated, modelling the supabase
`order last_updated descending`. -/
def insertByLastUpdated (r : ProviderRow) : List ProviderRow → List ProviderRow
  | [] => [r]
  | x :: xs =>
      if x.last_updated < r.last_updated then r :: x :: xs
      else x :: insertByLastUpdated r xs

/-- The server-side ordering of the query result. -/
def sortByLastUpdatedDesc (l : List ProviderRow) : List ProviderRow :=
  l.foldr insertByLastUpdated []

theorem mem_insertByLastUpdated (r a : ProviderRow) (l : List ProviderRow) :
    a ∈ insertByLastUpdated r l ↔ a = r ∨ a ∈ l := by
  induction l with
  | nil => simp [insertByLastUpdated]
  | cons x xs ih =>
    by_cases hx : x.last_updated < r.last_updated
    · simp [insertByLastUpdated, hx]
    · simp [insertByLastUpdated, hx, ih]
      tauto

theorem mem_sortByLastUpdatedDesc (a : ProviderRow) (l : List ProviderRow) :
    a ∈ sortByLastUpdatedDesc l ↔ a ∈ l := by
  induction l with
  | nil => simp [sortByLastUpdatedDesc]
  | cons x xs ih =>
    simp only [sortByLastUpdatedDesc, List.foldr_cons] at ih ⊢
    rw [mem_insertByLastUpdated, ih]
    simp

/-- getActiveProviders (supabase.js): the server query keeps rows with
is_active and last_updated within the last five minutes, ordered by
last_updated descending; the client-side "additional validation" then keeps
rows with allocated_storage > 0, available_storage > 0, price_per_gb > 0 and a
truthy (non-empty) wallet_address. -/
def getActiveProviders (rows : List ProviderRow) (now : Nat) : List ProviderRow :=
  let fiveMinutesAgo := now - 300000
  let serverRows := sortByLastUpdatedDesc (rows.filter (fun r =>
    r.is_active && decide (fiveMinutesAgo ≤ r.last_updated)))
  serverRows.filter (fun r =>
    decide (0 < r.allocated_storage) && decide (0 < r.available_storage) &&
    decide (0 < r.price_per_gb) && !(r.wallet_address = []))

/-- The filter predicate as the spec sentence states it: active, fresh
heartbeat, allocated>0, available>0, price>0 — and nothing else. -/
def specActiveFilter (now : Nat) (r : ProviderRow) : Prop :=
  r.is_active = true ∧ now - 300000 ≤ r.last_updated ∧
  0 < r.allocated_storage ∧ 0 < r.available_storage ∧ 0 < r.price_per_gb

/-- A providers-table row that satisfies every condition of the spec's filter
sentence but has an empty wallet_address. -/
def c8row : ProviderRow :=
  { provider_id := [7], wallet_address := [], allocated_storage := 1
    price_per_gb := 1, is_active := true, total_storage := 1
    available_storage := 1, last_updated := 300000 }

/-- C8 counterexample: the row satisfies the spec's five filter conditions and
is in the table, yet getActiveProviders drops it (the code also requires a
truthy wallet_address), so the returned sequence is not exactly the rows
satisfying the claimed filter. -/
theorem c8_counterexample_wallet_filter :
    c8row ∉ getActiveProviders [c8row] 300000 ∧
    c8row ∈ [c8row] ∧ specActiveFilter 300000 c8row := by
  refine ⟨?_, by simp, ?_⟩
  · simp [getActiveProviders, sortByLastUpdatedDesc, insertByLastUpdated, c8row]
  · refine ⟨rfl, by norm_num [c8row], by norm_num [c8row], by norm_num [c8row],
      by norm_num [c8row]⟩

/-- C8 amended: a row is returned by getActiveProviders exactly when it is in
the table and satisfies the five conditions of the spec's filter plus a
non-empty wallet_address; only the active/heartbeat part runs server-side, the
rest is filtered in the client after the query. -/
theorem c8_active_provider_filter (rows : List ProviderRow) (now : Nat)
    (r : ProviderRow) :
    r ∈ getActiveProviders rows now ↔
      (r ∈ rows ∧ specActiveFilter now r ∧ r.wallet_address ≠ []) := by
  simp only [getActiveProviders, specActiveFilter, List.mem_filter,
    mem_sortByLastUpdatedDesc, Bool.and_eq_true, decide_eq_true_eq,
    Bool.not_eq_true', decide_eq_false_iff_not]
  constructor
  · rintro ⟨⟨hr, ha, hf⟩, ⟨⟨h1, h2⟩, h3⟩, h4⟩
    exact ⟨hr, ⟨ha, hf, h1, h2, h3⟩, by simpa using h4⟩
  · rintro ⟨hr, ⟨ha, hf, h1, h2, h3⟩, h4⟩
    exact ⟨⟨hr, ha, hf⟩, ⟨⟨h1, h2⟩, h3⟩, by simpa using h4⟩

/-- Witness for C8's amended filter at a concrete table: a fully valid row is
returned. -/
def c8goodRow : ProviderRow :=
  { provider_id := [8], wallet_address := [48, 120, 97], allocated_storage := 2
    price_per_gb := 10, is_active := true, total_storage := 2
    available_storage := 1, last_updated := 600000 }

/-- Witness for C8: the amended equivalence instantiated at a concrete table. -/
theorem c8_witness :
    c8goodRow ∈ getActiveProviders [c8row, c8goodRow] 600000 ↔
      (c8goodRow ∈ [c8row, c8goodRow] ∧ specActiveFilter 600000 c8goodRow ∧
       c8goodRow.wallet_address ≠ []) :=
  c8_active_provider_filter [c8row, c8goodRow] 600000 c8goodRow

/-! ## Provider registration (src/src/keystore.js, provider part) -/

/-- checkAvailableStorage: sums `Math.floor(freeSpace / 2^30)` over the parsed
wmic drive lines; any error in running or parsing the command yields 0.  The
input is the list of per-drive free-byte counts, or none when the command
fails. -/
def checkAvailableStorage (drives : Option (List Nat)) : Nat :=
  match drives with
  | none => 0
  | some freeBytes => (freeBytes.map (fun f => f / (1024 * 1024 * 1024))).sum

/-- startProvider's verified allocation:
`Math.min(parseInt(answers.storage), availableStorage)`. -/
def verifiedStorageAmount (requested : Nat) (drives : Option (List Nat)) : Nat :=
  min requested (checkAvailableStorage drives)

/-- web3.utils.toWei(x, 'ether'): scaling by 10^18, as startProvider applies to
the verified storage and the price before calling registerProvider. -/
def toWei (gb : Nat) : Nat := gb * 1000000000000000000

/-- C10 counterexample: when storage detection fails, checkAvailableStorage is
0 and the verified amount is 0, but the on-chain registration of that amount
reverts ("Storage must be greater than 0") — no provider record with amount 0
is ever registered, contrary to the claim's "the registered amount is
therefore 0". -/
theorem c10_counterexample_zero_registration :
    checkAvailableStorage none = 0 ∧
    verifiedStorageAmount 5 none = 0 ∧
    registerProvider { providers := [], cidToProvider := [] } [2]
        (toWei (verifiedStorageAmount 5 none)) (toWei 10) =
      Except.error "Storage must be greater than 0" := ⟨rfl, rfl, rfl⟩

/-- C10 amended: the amount startProvider submits is min(requested, detected),
scaled to wei for the ledger; when it is nonzero the ledger records exactly
that amount, and when detection fails (checkAvailableStorage = 0) the submitted
amount is 0 and registerProvider reverts, so nothing is registered. -/
theorem c10_registered_storage_is_min (req : Nat) (drives : Option (List Nat))
    (st : ContractState) (caller : Bytes) (price : Nat) (hp : 0 < price) :
    verifiedStorageAmount req drives = min req (checkAvailableStorage drives) ∧
    checkAvailableStorage none = 0 ∧
    (0 < verifiedStorageAmount req drives →
      ∃ st1, registerProvider st caller (toWei (verifiedStorageAmount req drives))
          price = Except.ok st1 ∧
        (lookupD st1.providers caller emptyProvider).allocatedStorage =
          toWei (verifiedStorageAmount req drives) ∧
        (lookupD st1.providers caller emptyProvider).isActive = true) ∧
    (verifiedStorageAmount req drives = 0 →
      registerProvider st caller (toWei (verifiedStorageAmount req drives)) price =
        Except.error "Storage must be greater than 0") := by
  refine ⟨rfl, rfl, ?_, ?_⟩
  · intro hv
    have hw : toWei (verifiedStorageAmount req drives) ≠ 0 := by
      simp only [toWei]
      positivity
    refine ⟨ContractState.mk
      (setAssoc st.providers caller
        (ContractProvider.mk caller (toWei (verifiedStorageAmount req drives))
          (lookupD st.providers caller emptyProvider).usedStorage price true
          (lookupD st.providers caller emptyProvider).clients
          (lookupD st.providers caller emptyProvider).clientStorages))
      st.cidToProvider, ?_, ?_, ?_⟩
    · simp only [registerProvider, if_neg hw, if_neg (by omega : ¬price = 0)]
    · simp [lookupD_setAssoc_self]
    · simp [lookupD_setAssoc_self]
  · intro hv
    simp [registerProvider, toWei, hv]

/-- Witness for C10 at concrete inputs: 5 GB requested, one drive with 3 GiB
free, price 10. -/
theorem c10_witness :
    0 < 10 ∧
    (verifiedStorageAmount 5 (some [3221225472]) =
        min 5 (checkAvailableStorage (some [3221225472])) ∧
      checkAvailableStorage none = 0 ∧
      (0 < verifiedStorageAmount 5 (some [3221225472]) →
        ∃ st1, registerProvider { providers := [], cidToProvider := [] } [2]
            (toWei (verifiedStorageAmount 5 (some [3221225472]))) 10 =
            Except.ok st1 ∧
          (lookupD st1.providers [2] emptyProvider).allocatedStorage =
            toWei (verifiedStorageAmount 5 (some [3221225472])) ∧
          (lookupD st1.providers [2] emptyProvider).isActive = true) ∧
      (verifiedStorageAmount 5 (some [3221225472]) = 0 →
        registerProvider { providers := [], cidToProvider := [] } [2]
            (toWei (verifiedStorageAmount 5 (some [3221225472]))) 10 =
          Except.error "Storage must be greater than 0")) :=
  ⟨by omega, c10_registered_storage_is_min 5 (some [3221225472])
    { providers := [], cidToProvider := [] } [2] 10 (by omega)⟩

/-! ## The download path (src/unnamed/part_003, downloadFile)

downloadFile is modelled as the sequence of external requests it issues (the
trace) together with its outcome, as a function of what the collaborators
answer: `dbOk` (the stored_files lookup succeeds), `ipfsOnline` (the
debugIPFSConnection probe succeeds), `fd` (what getFileDetails returns, none
when the contract call throws), `metaOk` and `saltOk` (the two later
stored_files queries), and the caller's wallet address. -/

inductive DEvent where
  | dbCheck
  | ipfsProbe
  | ledgerQuery
  | dbMetaQuery
  | ipfsConnect
  | ipfsCat
  | dbSaltQuery
  | writeFile
deriving DecidableEq

/-- Whether an event is a request to the content store (IPFS). -/
def isContentStoreEvent : DEvent → Bool
  | DEvent.ipfsProbe => true
  | DEvent.ipfsConnect => true
  | DEvent.ipfsCat => true
  | _ => false

inductive DResult where
  | dbCheckFailed
  | ipfsUnavailable
  | verifyError
  | notFound
  | providerMismatch
  | permissionDenied
  | metadataFailed
  | saltMissing
  | success
deriving DecidableEq

/-- The run of downloadFile: the database check and the IPFS connection probe
happen before the contract is queried; then the three ownership checks in
order (zero/falsy owner, zero/falsy provider, case-insensitive owner match);
then metadata lookup, a second IPFS connection, the content fetch, the salt
lookup, decryption and the file write. -/
def downloadRun (dbOk ipfsOnline : Bool) (fd : Option (Bytes × Bytes × Nat))
    (metaOk saltOk : Bool) (caller : Bytes) : List DEvent × DResult :=
  if dbOk = false then ([DEvent.dbCheck], DResult.dbCheckFailed)
  else if ipfsOnline = false then
    ([DEvent.dbCheck, DEvent.ipfsProbe], DResult.ipfsUnavailable)
  else
    match fd with
    | none => ([DEvent.dbCheck, DEvent.ipfsProbe, DEvent.ledgerQuery],
               DResult.verifyError)
    | some (providerAddr, ownerAddr, _fileSize) =>
      let es := [DEvent.dbCheck, DEvent.ipfsProbe, DEvent.ledgerQuery]
      if ownerAddr = [] ∨ ownerAddr = zeroAddrB then (es, DResult.notFound)
      else if providerAddr = [] ∨ providerAddr = zeroAddrB then
        (es, DResult.providerMismatch)
      else if lowerBytes ownerAddr ≠ lowerBytes caller then
        (es, DResult.permissionDenied)
      else if metaOk = false then
        (es ++ [DEvent.dbMetaQuery], DResult.metadataFailed)
      else if saltOk = false then
        (es ++ [DEvent.dbMetaQuery, DEvent.ipfsConnect, DEvent.ipfsCat,
                DEvent.dbSaltQuery], DResult.saltMissing)
      else
        (es ++ [DEvent.dbMetaQuery, DEvent.ipfsConnect, DEvent.ipfsCat,
                DEvent.dbSaltQuery, DEvent.writeFile], DResult.success)

/-- C3: given the triple the ledger returned, downloadFile fails notFound on a
zero-address owner, providerMismatch on a zero-address provider once the owner
passed, permissionDenied when the caller does not match the owner
case-insensitively once both addresses passed — and in every run whatsoever the
plaintext is written only when all three checks passed. -/
theorem c3_download_ownership_checks (dbOk ipfsOnline metaOk saltOk : Bool)
    (providerAddr ownerAddr caller : Bytes) (fileSize : Nat) :
    (dbOk = true → ipfsOnline = true → ownerAddr = zeroAddrB →
      (downloadRun dbOk ipfsOnline (some (providerAddr, ownerAddr, fileSize))
        metaOk saltOk caller).2 = DResult.notFound) ∧
    (dbOk = true → ipfsOnline = true → ownerAddr ≠ [] → ownerAddr ≠ zeroAddrB →
      providerAddr = zeroAddrB →
      (downloadRun dbOk ipfsOnline (some (providerAddr, ownerAddr, fileSize))
        metaOk saltOk caller).2 = DResult.providerMismatch) ∧
    (dbOk = true → ipfsOnline = true → ownerAddr ≠ [] → ownerAddr ≠ zeroAddrB →
      providerAddr ≠ [] → providerAddr ≠ zeroAddrB →
      lowerBytes caller ≠ lowerBytes ownerAddr →
      (downloadRun dbOk ipfsOnline (some (providerAddr, ownerAddr, fileSize))
        metaOk saltOk caller).2 = DResult.permissionDenied) ∧
    (DEvent.writeFile ∈ (downloadRun dbOk ipfsOnline
        (some (providerAddr, ownerAddr, fileSize)) metaOk saltOk caller).1 →
      ownerAddr ≠ [] ∧ ownerAddr ≠ zeroAddrB ∧ providerAddr ≠ [] ∧
      providerAddr ≠ zeroAddrB ∧ lowerBytes caller = lowerBytes ownerAddr) := by
  refine ⟨?_, ?_, ?_, ?_⟩
  · intro hdb hip hz
    simp [downloadRun, hdb, hip, hz]
  · intro hdb hip ho1 ho2 hz
    simp [downloadRun, hdb, hip, ho1, ho2, hz]
  · intro hdb hip ho1 ho2 hp1 hp2 hc
    simp [downloadRun, hdb, hip, ho1, ho2, hp1, hp2, Ne.symm hc]
  · intro hw
    by_cases hdb : dbOk = false
    · simp [downloadRun, hdb] at hw
    · by_cases hip : ipfsOnline = false
      · simp [downloadRun, hdb, hip] at hw
      · simp only [downloadRun, if_neg hdb, if_neg hip] at hw
        by_cases ho : ownerAddr = [] ∨ ownerAddr = zeroAddrB
        · simp [ho] at hw
        · by_cases hpv : providerAddr = [] ∨ providerAddr = zeroAddrB
          · simp [ho, hpv] at hw
          · by_cases hlc : lowerBytes ownerAddr ≠ lowerBytes caller
            · simp [ho, hpv, hlc] at hw
            · push_neg at ho hpv hlc
              exact ⟨ho.1, ho.2, hpv.1, hpv.2, hlc.symm⟩

/-- Owner address used in the C6 counterexample run. -/
def c6owner : Bytes := [48, 120, 65, 65]

/-- Caller address used in the C6 counterexample run. -/
def c6caller : Bytes := [48, 120, 66, 66]

/-- Provider address used in the C6 counterexample run. -/
def c6prov : Bytes := [48, 120, 67, 67]

/-- C6 counterexample: a run in which the caller is not the owner does reject
with permissionDenied, yet its trace contains a content-store request (the
IPFS connection probe issued before the ledger check), so "the content store
is never queried at any point of the run" is false. -/
theorem c6_counterexample_probe_before_check :
    (downloadRun true true (some (c6prov, c6owner, 5)) true true c6caller).2 =
      DResult.permissionDenied ∧
    DEvent.ipfsProbe ∈
      (downloadRun true true (some (c6prov, c6owner, 5)) true true c6caller).1 ∧
    isContentStoreEvent DEvent.ipfsProbe = true := by
  refine ⟨by decide, by decide, rfl⟩

/-- C6 amended: in a run that reaches the ledger check and fails it because the
caller is not the owner, the result is permissionDenied, the ciphertext is
never fetched (no cat request), and no content-store request follows the
rejection — the only content-store traffic is the connectivity probe issued
before the ledger query. -/
theorem c6_permission_denied_no_fetch (providerAddr ownerAddr caller : Bytes)
    (fileSize : Nat) (metaOk saltOk : Bool)
    (ho1 : ownerAddr ≠ []) (ho2 : ownerAddr ≠ zeroAddrB)
    (hp1 : providerAddr ≠ []) (hp2 : providerAddr ≠ zeroAddrB)
    (hc : lowerBytes ownerAddr ≠ lowerBytes caller) :
    (downloadRun true true (some (providerAddr, ownerAddr, fileSize))
        metaOk saltOk caller).2 = DResult.permissionDenied ∧
    DEvent.ipfsCat ∉ (downloadRun true true
        (some (providerAddr, ownerAddr, fileSize)) metaOk saltOk caller).1 ∧
    (∀ e ∈ (downloadRun true true (some (providerAddr, ownerAddr, fileSize))
        metaOk saltOk caller).1,
      isContentStoreEvent e = true → e = DEvent.ipfsProbe) := by
  have hrun : downloadRun true true (some (providerAddr, ownerAddr, fileSize))
      metaOk saltOk caller =
      ([DEvent.dbCheck, DEvent.ipfsProbe, DEvent.ledgerQuery],
       DResult.permissionDenied) := by
    simp [downloadRun, ho1, ho2, hp1, hp2, hc]
  rw [hrun]
  refine ⟨rfl, by decide, by decide⟩

/-- Witness for C6's amended statement at the concrete counterexample run. -/
theorem c6_witness :
    c6owner ≠ [] ∧ c6owner ≠ zeroAddrB ∧ c6prov ≠ [] ∧ c6prov ≠ zeroAddrB ∧
    lowerBytes c6owner ≠ lowerBytes c6caller ∧
    ((downloadRun true true (some (c6prov, c6owner, 5)) true true c6caller).2 =
        DResult.permissionDenied ∧
     DEvent.ipfsCat ∉
       (downloadRun true true (some (c6prov, c6owner, 5)) true true c6caller).1 ∧
     (∀ e ∈ (downloadRun true true (some (c6prov, c6owner, 5)) true true
         c6caller).1, isContentStoreEvent e = true → e = DEvent.ipfsProbe)) :=
  ⟨by decide, by decide, by decide, by decide, by decide,
   c6_permission_denied_no_fetch c6prov c6owner c6caller 5 true true
     (by decide) (by decide) (by decide) (by decide) (by decide)⟩

/-! ## The CryptoJS layer used by keystore.js and client.js/download.js

CryptoJS passphrase-mode encryption (`CryptoJS.AES.encrypt(message, passString)`)
derives key and IV from the passphrase and a random 8-byte salt, and serializes
its output in the OpenSSL salted format: `Base64("Salted__" ++ salt ++ ct)`.
The byte-level layers (Base64, the OpenSSL header, PKCS7 padding, CBC
chaining) are embedded concretely below; the AES-256 block cipher and the
EVP key-derivation function are parameters, constrained only by the block
round-trip property `CipherOK` that AES satisfies. -/

/-- A hex digit character code (CryptoJS Hex.stringify is lower-case). -/
def hexDigit (n : Nat) : Nat := if n < 10 then 48 + n else 87 + n

/-- Hex encoding of a byte string, as WordArray.toString() produces. -/
def hexBytes : Bytes → Bytes
  | [] => []
  | b :: rest => hexDigit (b / 16) :: hexDigit (b % 16) :: hexBytes rest

theorem hexBytes_length (l : Bytes) : (hexBytes l).length = 2 * l.length := by
  induction l with
  | nil => rfl
  | cons b rest ih => simp [hexBytes, ih]; omega

/-- The Base64 alphabet: six bits to a character code. -/
def b64Char (n : Nat) : Nat :=
  if n < 26 then 65 + n
  else if n < 52 then 97 + (n - 26)
  else if n < 62 then 48 + (n - 52)
  else if n = 62 then 43 else 47

/-- The inverse Base64 table: character code back to six bits. -/
def b64Inv (c : Nat) : Nat :=
  if 65 ≤ c ∧ c ≤ 90 then c - 65
  else if 97 ≤ c ∧ c ≤ 122 then c - 97 + 26
  else if 48 ≤ c ∧ c ≤ 57 then c - 48 + 52
  else if c = 43 then 62 else 63

theorem b64_char_inv_fin : ∀ n : Fin 64, b64Inv (b64Char n.val) = n.val := by decide

theorem b64Inv_b64Char {n : Nat} (h : n < 64) : b64Inv (b64Char n) = n :=
  b64_char_inv_fin ⟨n, h⟩

theorem b64_char_ne_pad_fin : ∀ n : Fin 64, b64Char n.val ≠ 61 := by decide

theorem b64Char_ne_61 {n : Nat} (h : n < 64) : b64Char n ≠ 61 :=
  b64_char_ne_pad_fin ⟨n, h⟩

/-- Base64 encoding of a byte string (61 is the '=' padding character). -/
def enc64 : Bytes → Bytes
  | [] => []
  | [a] => [b64Char (a / 4), b64Char (a % 4 * 16), 61, 61]
  | [a, b] => [b64Char (a / 4), b64Char (a % 4 * 16 + b / 16), b64Char (b % 16 * 4), 61]
  | a :: b :: c :: rest =>
      b64Char (a / 4) :: b64Char (a % 4 * 16 + b / 16) ::
      b64Char (b % 16 * 4 + c / 64) :: b64Char (c % 64) :: enc64 rest

/-- Base64 decoding, the parse direction of the OpenSSL formatter. -/
def dec64 : Bytes → Bytes
  | c1 :: c2 :: c3 :: c4 :: rest =>
      if c3 = 61 then [b64Inv c1 * 4 + b64Inv c2 / 16]
      else if c4 = 61 then
        [b64Inv c1 * 4 + b64Inv c2 / 16, b64Inv c2 % 16 * 16 + b64Inv c3 / 4]
      else
        (b64Inv c1 * 4 + b64Inv c2 / 16) :: (b64Inv c2 % 16 * 16 + b64Inv c3 / 4) ::
        (b64Inv c3 % 4 * 64 + b64Inv c4) :: dec64 rest
  | _ => []

theorem enc64_length : ∀ l : Bytes, (enc64 l).length = 4 * ((l.length + 2) / 3)
  | [] => rfl
  | [a] => by simp [enc64]
  | [a, b] => by simp [enc64]
  | a :: b :: c :: rest => by
      have ih := enc64_length rest
      simp [enc64, ih]
      omega

theorem dec64_enc64 : ∀ l : Bytes, (∀ x ∈ l, x < 256) → dec64 (enc64 l) = l
  | [], _ => rfl
  | [a], h => by
      have ha : a < 256 := h a (by simp)
      show dec64 [b64Char (a / 4), b64Char (a % 4 * 16), 61, 61] = [a]
      simp [dec64, b64Inv_b64Char (show a / 4 < 64 by omega),
        b64Inv_b64Char (show a % 4 * 16 < 64 by omega)]
      omega
  | [a, b], h => by
      have ha : a < 256 := h a (by simp)
      have hb : b < 256 := h b (by simp)
      have hne : b64Char (b % 16 * 4) ≠ 61 := b64Char_ne_61 (by omega)
      show dec64 [b64Char (a / 4), b64Char (a % 4 * 16 + b / 16),
        b64Char (b % 16 * 4), 61] = [a, b]
      simp [dec64, hne, b64Inv_b64Char (show a / 4 < 64 by omega),
        b64Inv_b64Char (show a % 4 * 16 + b / 16 < 64 by omega),
        b64Inv_b64Char (show b % 16 * 4 < 64 by omega)]
      omega
  | [a, b, c], h => by
      have ha : a < 256 := h a (by simp)
      have hb : b < 256 := h b (by simp)
      have hc : c < 256 := h c (by simp)
      have hne3 : b64Char (b % 16 * 4 + c / 64) ≠ 61 := b64Char_ne_61 (by omega)
      have hne4 : b64Char (c % 64) ≠ 61 := b64Char_ne_61 (by omega)
      show dec64 [b64Char (a / 4), b64Char (a % 4 * 16 + b / 16),
        b64Char (b % 16 * 4 + c / 64), b64Char (c % 64)] = [a, b, c]
      simp [dec64, hne3, hne4, b64Inv_b64Char (show a / 4 < 64 by omega),
        b64Inv_b64Char (show a % 4 * 16 + b / 16 < 64 by omega),
        b64Inv_b64Char (show b % 16 * 4 + c / 64 < 64 by omega),
        b64Inv_b64Char (show c % 64 < 64 by omega)]
      omega
  | a :: b :: c :: d :: rest, h => by
      have ha : a < 256 := h a (by simp)
      have hb : b < 256 := h b (by simp)
      have hc : c < 256 := h c (by simp)
      have hne3 : b64Char (b % 16 * 4 + c / 64) ≠ 61 := b64Char_ne_61 (by omega)
      have hne4 : b64Char (c % 64) ≠ 61 := b64Char_ne_61 (by omega)
      have ih := dec64_enc64 (d :: rest) (fun x hx => h x (by simp [hx]))
      show dec64 (b64Char (a / 4) :: b64Char (a % 4 * 16 + b / 16) ::
        b64Char (b % 16 * 4 + c / 64) :: b64Char (c % 64) :: enc64 (d :: rest)) =
        a :: b :: c :: d :: rest
      simp [dec64, hne3, hne4, ih, b64Inv_b64Char (show a / 4 < 64 by omega),
        b64Inv_b64Char (show a % 4 * 16 + b / 16 < 64 by omega),
        b64Inv_b64Char (show b % 16 * 4 + c / 64 < 64 by omega),
        b64Inv_b64Char (show c % 64 < 64 by omega)]
      omega

/-- PKCS7 padding to the 16-byte AES block, as CryptoJS Pkcs7.pad does. -/
def pkcs7pad (l : Bytes) : Bytes :=
  l ++ List.replicate (16 - l.length % 16) (16 - l.length % 16)

/-- CryptoJS Pkcs7.unpad: read the final byte as the padding count and drop
that many bytes — with no validation of the padding. -/
def pkcs7unpad (l : Bytes) : Bytes := l.take (l.length - l.getLastD 0)

theorem pkcs7_roundtrip (l : Bytes) : pkcs7unpad (pkcs7pad l) = l := by
  have h1 : 1 ≤ 16 - l.length % 16 := by omega
  set n := 16 - l.length % 16 with hn
  have heq : n = (n - 1) + 1 := by omega
  have hrep : List.replicate n n = List.replicate (n - 1) n ++ [n] := by
    nth_rewrite 1 [heq]
    exact List.replicate_succ' _ _
  simp only [pkcs7pad, pkcs7unpad, ← hn]
  rw [hrep, ← List.append_assoc, List.getLastD_concat, List.append_assoc]
  have hlen : (l ++ (List.replicate (n - 1) n ++ [n])).length = l.length + n := by
    simp [List.length_append, List.length_replicate]
    omega
  rw [hlen]
  have hcount : l.length + n - n = l.length := by omega
  rw [hcount]
  exact List.take_left l _

theorem pkcs7pad_length_dvd (l : Bytes) : 16 ∣ (pkcs7pad l).length := by
  simp only [pkcs7pad, List.length_append, List.length_replicate]
  omega

theorem pkcs7pad_bound (l : Bytes) (h : ∀ x ∈ l, x < 256) :
    ∀ x ∈ pkcs7pad l, x < 256 := by
  intro x hx
  rcases List.mem_append.1 hx with hx | hx
  · exact h x hx
  · have := List.eq_of_mem_replicate hx
    omega

/-- Split a byte string into 16-byte cipher blocks (the last block may be
shorter when the input is not block-aligned). -/
def chunks16 (l : Bytes) : List Bytes :=
  if h : l = [] then [] else l.take 16 :: chunks16 (l.drop 16)
termination_by l.length
decreasing_by
  have : 0 < l.length := List.length_pos.2 h
  simp [List.length_drop]
  omega

theorem join_chunks16 (l : Bytes) : (chunks16 l).flatten = l := by
  by_cases hl : l = []
  · subst hl
    simp [chunks16]
  · rw [chunks16, dif_neg hl]
    simp only [List.flatten_cons]
    rw [join_chunks16 (l.drop 16)]
    exact List.take_append_drop 16 l
termination_by l.length
decreasing_by
  have : 0 < l.length := List.length_pos.2 hl
  simp [List.length_drop]
  omega

theorem chunks16_of_join (bl : List Bytes) (h : ∀ b ∈ bl, b.length = 16) :
    chunks16 bl.flatten = bl := by
  induction bl with
  | nil => simp [chunks16]
  | cons b bs ih =>
    have hb : b.length = 16 := h b (by simp)
    have hne : (b :: bs).flatten ≠ [] := by
      simp only [List.flatten_cons]
      intro hcon
      have := congrArg List.length hcon
      simp [hb] at this
    rw [chunks16, dif_neg hne]
    simp only [List.flatten_cons]
    rw [show (16 : Nat) = b.length from hb.symm, List.take_left, List.drop_left]
    rw [ih (fun x hx => h x (List.mem_cons_of_mem _ hx))]

theorem chunks16_length_mem (l : Bytes) (hdvd : 16 ∣ l.length) :
    ∀ b ∈ chunks16 l, b.length = 16 := by
  by_cases hl : l = []
  · subst hl
    simp [chunks16]
  · rw [chunks16, dif_neg hl]
    intro b hb
    rcases List.mem_cons.1 hb with rfl | hb
    · have h0 : 0 < l.length := List.length_pos.2 hl
      simp only [List.length_take]
      omega
    · exact chunks16_length_mem (l.drop 16)
        (by simp only [List.length_drop]; omega) b hb
termination_by l.length
decreasing_by
  have : 0 < l.length := List.length_pos.2 hl
  simp [List.length_drop]
  omega

theorem chunks16_subset (l : Bytes) :
    ∀ b ∈ chunks16 l, ∀ x ∈ b, x ∈ l := by
  by_cases hl : l = []
  · subst hl
    simp [chunks16]
  · rw [chunks16, dif_neg hl]
    intro b hb x hx
    rcases List.mem_cons.1 hb with rfl | hb
    · exact List.take_subset 16 l hx
    · exact List.drop_subset 16 l (chunks16_subset (l.drop 16) b hb x hx)
termination_by l.length
decreasing_by
  have : 0 < l.length := List.length_pos.2 hl
  simp [List.length_drop]
  omega

/-- Byte-wise xor, the CBC chaining step. -/
def xorBytes (a b : Bytes) : Bytes := List.zipWith (fun x y => x ^^^ y) a b

theorem xorBytes_length (a b : Bytes) :
    (xorBytes a b).length = min a.length b.length := by
  simp [xorBytes]

theorem xorBytes_cancel (a : Bytes) :
    ∀ b : Bytes, a.length = b.length → xorBytes a (xorBytes a b) = b := by
  induction a with
  | nil =>
    intro b hb
    cases b
    · rfl
    · simp at hb
  | cons x xs ih =>
    intro b hb
    cases b with
    | nil => simp at hb
    | cons y ys =>
      simp only [List.length_cons] at hb
      have hlen : xs.length = ys.length := by omega
      simp only [xorBytes, List.zipWith_cons_cons]
      rw [← Nat.xor_assoc, Nat.xor_self, Nat.zero_xor]
      have hih := ih ys hlen
      simp only [xorBytes] at hih
      rw [hih]

theorem xorBytes_bound (a : Bytes) :
    ∀ b : Bytes, (∀ x ∈ a, x < 256) → (∀ x ∈ b, x < 256) →
      ∀ x ∈ xorBytes a b, x < 256 := by
  induction a with
  | nil => intro b _ _ x hx; simp [xorBytes] at hx
  | cons v vs ih =>
    intro b ha hb x hx
    cases b with
    | nil => simp [xorBytes] at hx
    | cons w ws =>
      simp only [xorBytes, List.zipWith_cons_cons, List.mem_cons] at hx
      rcases hx with rfl | hx
      · have hv : v < 2 ^ 8 := by simpa using ha v (by simp)
        have hw : w < 2 ^ 8 := by simpa using hb w (by simp)
        simpa using Nat.xor_lt_two_pow hv hw
      · exact ih ws (fun y hy => ha y (by simp [hy]))
          (fun y hy => hb y (by simp [hy])) x hx

/-- CBC encryption over a block list: each plaintext block is xored with the
previous ciphertext block (the IV first), then sent through the block cipher. -/
def cbcEncBlocks (E : Bytes → Bytes → Bytes) (key : Bytes) :
    Bytes → List Bytes → List Bytes
  | _, [] => []
  | iv, b :: bs =>
    E key (xorBytes iv b) :: cbcEncBlocks E key (E key (xorBytes iv b)) bs

/-- CBC decryption over a block list. -/
def cbcDecBlocks (D : Bytes → Bytes → Bytes) (key : Bytes) :
    Bytes → List Bytes → List Bytes
  | _, [] => []
  | iv, c :: cs => xorBytes iv (D key c) :: cbcDecBlocks D key c cs

/-- CBC encryption of a block-aligned byte string. -/
def cbcEncrypt (E : Bytes → Bytes → Bytes) (key iv data : Bytes) : Bytes :=
  (cbcEncBlocks E key iv (chunks16 data)).flatten

/-- CBC decryption of a byte string. -/
def cbcDecrypt (D : Bytes → Bytes → Bytes) (key iv data : Bytes) : Bytes :=
  (cbcDecBlocks D key iv (chunks16 data)).flatten

/-- What the embedding assumes of the AES-256 block cipher pair: on a 16-byte
block of bytes, encryption yields a 16-byte block of bytes and decryption
inverts it. -/
def CipherOK (E D : Bytes → Bytes → Bytes) : Prop :=
  ∀ key b, b.length = 16 → (∀ x ∈ b, x < 256) →
    (E key b).length = 16 ∧ (∀ x ∈ E key b, x < 256) ∧ D key (E key b) = b

theorem cbcEncBlocks_props {E D : Bytes → Bytes → Bytes} (hED : CipherOK E D)
    (key : Bytes) :
    ∀ (bl : List Bytes) (iv : Bytes), iv.length = 16 → (∀ x ∈ iv, x < 256) →
      (∀ b ∈ bl, b.length = 16 ∧ ∀ x ∈ b, x < 256) →
      ∀ c ∈ cbcEncBlocks E key iv bl, c.length = 16 ∧ ∀ x ∈ c, x < 256 := by
  intro bl
  induction bl with
  | nil => intro iv _ _ _ c hc; simp [cbcEncBlocks] at hc
  | cons b bs ih =>
    intro iv hivl hivb hbl c hc
    have hb := hbl b (by simp)
    have hxl : (xorBytes iv b).length = 16 := by
      rw [xorBytes_length, hivl, hb.1]
      simp
    have hxb : ∀ x ∈ xorBytes iv b, x < 256 := xorBytes_bound iv b hivb hb.2
    have hE := hED key (xorBytes iv b) hxl hxb
    simp only [cbcEncBlocks, List.mem_cons] at hc
    rcases hc with rfl | hc
    · exact ⟨hE.1, hE.2.1⟩
    · exact ih (E key (xorBytes iv b)) hE.1 hE.2.1
        (fun y hy => hbl y (by simp [hy])) c hc

theorem cbc_blocks_roundtrip {E D : Bytes → Bytes → Bytes} (hED : CipherOK E D)
    (key : Bytes) :
    ∀ (bl : List Bytes) (iv : Bytes), iv.length = 16 → (∀ x ∈ iv, x < 256) →
      (∀ b ∈ bl, b.length = 16 ∧ ∀ x ∈ b, x < 256) →
      cbcDecBlocks D key iv (cbcEncBlocks E key iv bl) = bl := by
  intro bl
  induction bl with
  | nil => intro iv _ _ _; rfl
  | cons b bs ih =>
    intro iv hivl hivb hbl
    have hb := hbl b (by simp)
    have hxl : (xorBytes iv b).length = 16 := by
      rw [xorBytes_length, hivl, hb.1]
      simp
    have hxb : ∀ x ∈ xorBytes iv b, x < 256 := xorBytes_bound iv b hivb hb.2
    have hE := hED key (xorBytes iv b) hxl hxb
    simp only [cbcEncBlocks, cbcDecBlocks]
    rw [hE.2.2, xorBytes_cancel iv b (by omega)]
    rw [ih (E key (xorBytes iv b)) hE.1 hE.2.1
      (fun y hy => hbl y (by simp [hy]))]

/-- CBC round trip on block-aligned byte data, given a sound block cipher. -/
theorem cbc_roundtrip {E D : Bytes → Bytes → Bytes} (hED : CipherOK E D)
    (key iv data : Bytes) (hiv : iv.length = 16) (hivb : ∀ x ∈ iv, x < 256)
    (hd : 16 ∣ data.length) (hb : ∀ x ∈ data, x < 256) :
    cbcDecrypt D key iv (cbcEncrypt E key iv data) = data := by
  have hblocks : ∀ b ∈ chunks16 data, b.length = 16 ∧ ∀ x ∈ b, x < 256 :=
    fun b hbm => ⟨chunks16_length_mem data hd b hbm,
      fun x hx => hb x (chunks16_subset data b hbm x hx)⟩
  have hcprops := cbcEncBlocks_props hED key (chunks16 data) iv hiv hivb hblocks
  simp only [cbcDecrypt, cbcEncrypt]
  rw [chunks16_of_join _ (fun c hc => (hcprops c hc).1)]
  rw [cbc_blocks_roundtrip hED key (chunks16 data) iv hiv hivb hblocks]
  exact join_chunks16 data

/-- The ciphertext of a CBC encryption consists of bytes below 256, given a
sound cipher, a 16-byte IV of bytes and byte data. -/
theorem cbcEncrypt_bound {E D : Bytes → Bytes → Bytes} (hED : CipherOK E D)
    (key iv data : Bytes) (hiv : iv.length = 16) (hivb : ∀ x ∈ iv, x < 256)
    (hd : 16 ∣ data.length) (hb : ∀ x ∈ data, x < 256) :
    ∀ x ∈ cbcEncrypt E key iv data, x < 256 := by
  intro x hx
  have hblocks : ∀ b ∈ chunks16 data, b.length = 16 ∧ ∀ x ∈ b, x < 256 :=
    fun b hbm => ⟨chunks16_length_mem data hd b hbm,
      fun y hy => hb y (chunks16_subset data b hbm y hy)⟩
  simp only [cbcEncrypt] at hx
  rcases List.mem_flatten.1 hx with ⟨c, hc, hxc⟩
  exact (cbcEncBlocks_props hED key (chunks16 data) iv hiv hivb hblocks c hc).2 x hxc

/-! ## The keystore (src/src/keystore.js) -/

/-- The fixed keystore passphrase 'depin-storage-secure-key' (ENCRYPTION_KEY in
keystore.js), as character codes. -/
def keystorePass : Bytes :=
  [100, 101, 112, 105, 110, 45, 115, 116, 111, 114, 97, 103, 101, 45,
   115, 101, 99, 117, 114, 101, 45, 107, 101, 121]

/-- The ASCII bytes of 'Salted__', the OpenSSL format header CryptoJS writes in
front of the 8-byte salt. -/
def opensslHeader : Bytes := [83, 97, 108, 116, 101, 100, 95, 95]

/-- savePrivateKey: `CryptoJS.AES.encrypt(privateKey, ENCRYPTION_KEY).toString()`
in passphrase mode — derive (key, iv) from the passphrase and a random 8-byte
salt via the EVP kdf, CBC-encrypt the PKCS7-padded key bytes, and serialize as
Base64 of `Salted__ ++ salt ++ ciphertext`; the result is written to the
keystore file.  `E` is the AES block encryption and `kdf` the EVP derivation,
both parameters of the embedding; `salt` is the random salt drawn for this
call. -/
def savePrivateKey (E : Bytes → Bytes → Bytes)
    (kdf : Bytes → Bytes → Bytes × Bytes) (salt pk : Bytes) : Bytes :=
  let kiv := kdf keystorePass salt
  enc64 (opensslHeader ++ salt ++ cbcEncrypt E kiv.1 kiv.2 (pkcs7pad pk))

/-- loadPrivateKey: returns none when the keystore file does not exist;
otherwise parses the Base64 OpenSSL format (re-reading the salt from the
header), re-derives (key, iv) from the fixed passphrase and that salt,
CBC-decrypts and strips the PKCS7 padding. -/
def loadPrivateKey (D : Bytes → Bytes → Bytes)
    (kdf : Bytes → Bytes → Bytes × Bytes) (file : Option Bytes) : Option Bytes :=
  match file with
  | none => none
  | some content =>
    let raw := dec64 content
    if raw.take 8 = opensslHeader then
      let salt := (raw.drop 8).take 8
      let ct := raw.drop 16
      let kiv := kdf keystorePass salt
      some (pkcs7unpad (cbcDecrypt D kiv.1 kiv.2 ct))
    else
      let kiv := kdf keystorePass []
      some (pkcs7unpad (cbcDecrypt D kiv.1 kiv.2 raw))

/-- C9: with a sound block cipher and any deterministic EVP kdf producing a
16-byte IV of bytes, loadPrivateKey after savePrivateKey returns exactly the
saved private key, and loadPrivateKey of a missing keystore file returns
none. -/
theorem c9_keystore_roundtrip (E D : Bytes → Bytes → Bytes)
    (kdf : Bytes → Bytes → Bytes × Bytes) (hED : CipherOK E D)
    (hkdfLen : ∀ p s, (kdf p s).2.length = 16)
    (hkdfBound : ∀ p s, ∀ x ∈ (kdf p s).2, x < 256)
    (salt pk : Bytes) (hs : salt.length = 8) (hsb : ∀ x ∈ salt, x < 256)
    (hpk : ∀ x ∈ pk, x < 256) :
    loadPrivateKey D kdf (some (savePrivateKey E kdf salt pk)) = some pk ∧
    loadPrivateKey D kdf none = none := by
  refine ⟨?_, rfl⟩
  have hctb : ∀ x ∈ cbcEncrypt E (kdf keystorePass salt).1
      (kdf keystorePass salt).2 (pkcs7pad pk), x < 256 :=
    cbcEncrypt_bound hED _ _ _ (hkdfLen _ _) (hkdfBound _ _)
      (pkcs7pad_length_dvd pk) (pkcs7pad_bound pk hpk)
  have hhb : ∀ x ∈ opensslHeader, x < 256 := by decide
  have hall : ∀ x ∈ opensslHeader ++ salt ++ cbcEncrypt E
      (kdf keystorePass salt).1 (kdf keystorePass salt).2 (pkcs7pad pk),
      x < 256 := by
    intro x hx
    rcases List.mem_append.1 hx with hx | hx
    · rcases List.mem_append.1 hx with hx | hx
      · exact hhb x hx
      · exact hsb x hx
    · exact hctb x hx
  simp only [loadPrivateKey, savePrivateKey]
  rw [dec64_enc64 _ hall]
  have hh8 : opensslHeader.length = 8 := by decide
  rw [List.append_assoc]
  rw [List.take_left' hh8]
  rw [if_pos rfl]
  rw [List.drop_left' hh8]
  rw [List.take_left' hs]
  rw [show opensslHeader ++ (salt ++ cbcEncrypt E (kdf keystorePass salt).1
      (kdf keystorePass salt).2 (pkcs7pad pk)) = (opensslHeader ++ salt) ++
      cbcEncrypt E (kdf keystorePass salt).1 (kdf keystorePass salt).2
      (pkcs7pad pk) from (List.append_assoc _ _ _).symm]
  rw [List.drop_left' (by simp [hh8, hs] : (opensslHeader ++ salt).length = 16)]
  rw [cbc_roundtrip hED _ _ _ (hkdfLen _ _) (hkdfBound _ _)
    (pkcs7pad_length_dvd pk) (pkcs7pad_bound pk hpk)]
  rw [pkcs7_roundtrip]

/-- Witness for C9 with the identity block cipher and a constant kdf, at a
concrete salt and private key. -/
theorem c9_witness :
    CipherOK (fun _ b => b) (fun _ b => b) ∧
    (loadPrivateKey (fun _ b => b) (fun _ _ => ([], List.replicate 16 0))
        (some (savePrivateKey (fun _ b => b) (fun _ _ => ([], List.replicate 16 0))
          (List.replicate 8 1) [104, 101, 108, 108, 111])) =
      some [104, 101, 108, 108, 111] ∧
     loadPrivateKey (fun _ b => b) (fun _ _ => ([], List.replicate 16 0)) none =
      none) :=
  ⟨fun _ b hl hb => ⟨hl, hb, rfl⟩,
   c9_keystore_roundtrip (fun _ b => b) (fun _ b => b)
     (fun _ _ => ([], List.replicate 16 0)) (fun _ b hl hb => ⟨hl, hb, rfl⟩)
     (fun _ _ => by simp) (fun _ _ => by simp)
     (List.replicate 8 1) [104, 101, 108, 108, 111] (by simp) (by decide)
     (by decide)⟩

/-! ## The upload/download encryption pipeline (client.js / download.js)

startClient draws a 16-byte PBKDF2 salt, derives the key from
`walletAddress + privateKey` and that raw salt, encrypts with
`CryptoJS.AES.encrypt(file.toString(), encryptionKey.toString(), ...)` — a
passphrase-mode call whose `.toString()` output is the Base64 OpenSSL text —
uploads that text to IPFS, and stores `salt.toString()` (the hex string) in
the metadata index.  downloadFile re-derives the key passing the stored hex
STRING as the PBKDF2 salt (CryptoJS UTF-8-parses it, yielding the character
codes of the hex digits, not the original bytes) and feeds the raw fetched
bytes (the Base64 text) directly to AES.decrypt as ciphertext, without Base64
decoding or header stripping. -/

/-- The salt bytes the upload-side PBKDF2 call consumes: the raw random
WordArray. -/
def uploadKdfSaltBytes (salt : Bytes) : Bytes := salt

/-- The salt string stored in the metadata index: `salt.toString()`, hex. -/
def storedSaltHex (salt : Bytes) : Bytes := hexBytes salt

/-- The salt bytes the download-side PBKDF2 call consumes: the UTF-8 parse of
the stored hex string. -/
def downloadKdfSaltBytes (salt : Bytes) : Bytes := storedSaltHex salt

/-- The bytes published to the content store: the UTF-8 text of
`CryptoJS.AES.encrypt(...).toString()`, i.e. Base64 of the OpenSSL salted
format around the AES ciphertext (`ct`); `cjsSalt` is the 8-byte salt of the
passphrase-mode encryption. -/
def uploadedPayloadBytes (cjsSalt ct : Bytes) : Bytes :=
  enc64 (opensslHeader ++ cjsSalt ++ ct)

/-- The bytes downloadFile hands to AES.decrypt as the ciphertext: the fetched
payload unchanged (`CryptoJS.lib.WordArray.create(encryptedContent)`). -/
def downloadDecryptInputBytes (payload : Bytes) : Bytes := payload

/-- C1 divergence: the download side derives its key from different salt bytes
than the upload side used (hex text vs raw bytes), and hands AES a different
byte string than the ciphertext the upload side produced (the un-decoded
Base64 text, which is strictly longer), so decryption cannot invert the
recorded encryption. -/
theorem c1_encrypt_decrypt_mismatch (salt ct cjsSalt : Bytes)
    (h16 : salt.length = 16) (h8 : cjsSalt.length = 8) :
    downloadKdfSaltBytes salt ≠ uploadKdfSaltBytes salt ∧
    downloadDecryptInputBytes (uploadedPayloadBytes cjsSalt ct) ≠ ct := by
  constructor
  · intro hcon
    have hlen := congrArg List.length hcon
    simp only [downloadKdfSaltBytes, uploadKdfSaltBytes, storedSaltHex,
      hexBytes_length, h16] at hlen
    omega
  · intro hcon
    have hlen := congrArg List.length hcon
    simp only [downloadDecryptInputBytes, uploadedPayloadBytes, enc64_length,
      List.length_append, h8] at hlen
    have hhl : opensslHeader.length = 8 := by decide
    rw [hhl] at hlen
    omega

/-- Witness for C1 at a concrete salt and ciphertext. -/
theorem c1_witness :
    (List.replicate 16 0 : Bytes).length = 16 ∧
    (List.replicate 8 0 : Bytes).length = 8 ∧
    (downloadKdfSaltBytes (List.replicate 16 0) ≠
        uploadKdfSaltBytes (List.replicate 16 0) ∧
      downloadDecryptInputBytes
          (uploadedPayloadBytes (List.replicate 8 0) [1, 2, 3]) ≠ [1, 2, 3]) :=
  ⟨by simp, by simp,
   c1_encrypt_decrypt_mismatch (List.replicate 16 0) [1, 2, 3]
     (List.replicate 8 0) (by simp) (by simp)⟩
